import Mathlib

/-!
Verification of the wave dependency-hash reconciliation engine.

The controller wiring (`Reconcile`, `add` in
`pkg/controller/deployment/deployment_controller.go`) and the test matcher
helpers (`Update`, `Eventually` in `test/utils/matchers.go`) are embedded
from the Go sources.  The core engine (reference extraction, fingerprinting,
dependency tracking, orchestration — package `pkg/core`) is not part of the
provided tree, so it is modelled from the specification.
-/

namespace Wave

/-- Errors surfaced by the backing store / apimachinery, as distinguished by
the controller code via `errors.IsNotFound`. -/
inductive K8sError
  | notFound (msg : String)
  | conflict (msg : String)
  | storeUnavailable (msg : String)
deriving DecidableEq, Repr

/-- Embeds `errors.IsNotFound` as used inside `Reconcile`. -/
def isNotFound : K8sError → Bool
  | .notFound _ => true
  | _ => false

/-- Embeds `reconcile.Result`, the requeue directives handed back to the
trigger subsystem.  The Go zero value has both fields zero. -/
structure ReconcileResult where
  requeue : Bool := false
  requeueAfter : Nat := 0
deriving DecidableEq, Repr

/-- The `reconcile.Result{}` literal returned by `Reconcile`. -/
def emptyResult : ReconcileResult := {}

/-- Embeds `ReconcileDeployment.Reconcile` from
`pkg/controller/deployment/deployment_controller.go` (lines 95-109):
fetch the Deployment; on a NotFound error return terminal success; on any
other error return that error; otherwise delegate to
`handler.HandleDeployment`.  The fetch outcome and the handler body are
parameters because they live behind interfaces in the Go code. -/
def Reconcile {α : Type} (getResult : Except K8sError α)
    (handleDeployment : α → ReconcileResult × Option K8sError) :
    ReconcileResult × Option K8sError :=
  match getResult with
  | .error e => if isNotFound e then (emptyResult, none) else (emptyResult, some e)
  | .ok inst => handleDeployment inst

/-- The object kinds a watch source can name in `add`. -/
inductive WatchKind
  | deployment
  | configMap
  | secret
deriving DecidableEq, Repr

/-- The enqueue handler attached to a watch: `EnqueueRequestForObject`
enqueues the changed object's own identity; `EnqueueRequestForOwner`
enqueues the identities found in the object's owner references of the given
owner type (`isController = false` means non-controlling references
qualify). -/
inductive EnqueueHandler
  | forObject
  | forOwner (isController : Bool) (ownerType : WatchKind)
deriving DecidableEq, Repr

/-- One `c.Watch(source, handler)` registration. -/
structure WatchRegistration where
  src : WatchKind
  handlerSpec : EnqueueHandler
deriving DecidableEq, Repr

/-- Embeds `add` from `deployment_controller.go` (lines 47-79): register,
in order, a watch on Deployments enqueueing the object itself, a watch on
ConfigMaps enqueueing their non-controlling Deployment owners, and a watch
on Secrets enqueueing their non-controlling Deployment owners; stop at the
first registration error.  `watchErr` models the fallible `c.Watch` call. -/
def add (watchErr : WatchRegistration → Option K8sError) :
    Except K8sError (List WatchRegistration) :=
  let w1 : WatchRegistration := ⟨.deployment, .forObject⟩
  match watchErr w1 with
  | some e => .error e
  | none =>
    let w2 : WatchRegistration := ⟨.configMap, .forOwner false .deployment⟩
    match watchErr w2 with
    | some e => .error e
    | none =>
      let w3 : WatchRegistration := ⟨.secret, .forOwner false .deployment⟩
      match watchErr w3 with
      | some e => .error e
      | none => .ok [w1, w2, w3]

/-- A namespaced name, as built by the matchers from an object's namespace
and name. -/
abbrev TKey := String × String

/-- An opaque test object: its key plus an abstract payload standing for
the rest of its state. -/
structure TObj where
  key : TKey
  payload : Nat
deriving DecidableEq, Repr

/-- The API-server state seen by the test matchers. -/
structure TestStore where
  objs : List (TKey × TObj)
deriving DecidableEq, Repr

/-- Embeds one polling attempt of the closure built by `Matcher.Update` in
`test/utils/matchers.go` (lines 48-61): `Get` the current object; if that
fails, return the fetch error without touching the store; otherwise apply
the mutation `fn` to the freshly fetched object and issue `Update` with the
result.  `get` and `doUpdate` model the controller-runtime client calls. -/
def updateAttempt (get : TKey → Except K8sError TObj)
    (doUpdate : TObj → TestStore → TestStore × Option K8sError)
    (s : TestStore) (k : TKey) (fn : TObj → TObj) : TestStore × Option K8sError :=
  match get k with
  | .error e => (s, some e)
  | .ok fresh => doUpdate (fn fresh) s

/-- The concrete non-list object types distinguished by the type switch in
`eventuallyObject` (`test/utils/matchers.go` lines 110-142), plus a case
for every other non-list object type. -/
inductive NonListType
  | statefulSet
  | configMap
  | secret
  | deployment
  | daemonSet
  | otherObject
deriving DecidableEq, Repr

/-- Embeds the type switch of the fetch closure in `eventuallyObject`: for
each known workload or configuration type it constructs a fresh object of
the same concrete type; any other object type hits the default branch,
which panics.  A panic is modelled as `Except.error` carrying the panic
message. -/
def eventuallyObjectFresh : NonListType → Except String NonListType
  | .statefulSet => .ok .statefulSet
  | .configMap => .ok .configMap
  | .secret => .ok .secret
  | .deployment => .ok .deployment
  | .daemonSet => .ok .daemonSet
  | .otherObject => .error "Unknown Object type."

/-- Modelled from the spec: the two configuration-object kinds a pod
template can reference (config-map-shaped or secret-shaped Dependency). -/
inductive DepKind
  | configMap
  | secret
deriving DecidableEq, Repr

/-- A Dependency identity within a namespace: kind plus name. -/
abbrev DepId := DepKind × String

/-- Numeric code of a Dependency kind, used for the lexicographic ordering
of references (kind before name). -/
def kindNat : DepKind → Nat
  | .configMap => 0
  | .secret => 1

/-- Key function realising the spec's lexicographic order on references:
kind first, then name. -/
def idKeyFn (p : DepId) : Nat ×ₗ String := toLex (kindNat p.1, p.2)

theorem kindNat_injective : Function.Injective kindNat := by
  intro a b h
  cases a <;> cases b <;> simp [kindNat] at h ⊢

theorem idKeyFn_injective : Function.Injective idKeyFn := by
  intro a b h
  have h2 : (kindNat a.1, a.2) = (kindNat b.1, b.2) := congrArg (fun x => ofLex x) h
  have hk : kindNat a.1 = kindNat b.1 := (Prod.ext_iff.mp h2).1
  have hn : a.2 = b.2 := (Prod.ext_iff.mp h2).2
  exact Prod.ext (kindNat_injective hk) hn

instance : LinearOrder DepId := LinearOrder.lift' idKeyFn idKeyFn_injective

/-- Modelled from the spec: a projected-volume source naming a config map
or secret (missing source: the pkg/core reference extractor). -/
inductive ProjSource
  | configMap (name : String) (optional : Bool)
  | secret (name : String) (optional : Bool)
  | other
deriving DecidableEq, Repr

/-- Modelled from the spec: a pod volume of config-map or secret type, a
projected volume carrying several sources, or any other volume type
(ignored by extraction). -/
inductive VolumeSource
  | configMap (name : String) (optional : Bool)
  | secret (name : String) (optional : Bool)
  | projected (sources : List ProjSource)
  | other
deriving DecidableEq, Repr

/-- Modelled from the spec: a container environment-variable value source
(`valueFrom` key references), or a plain value. -/
inductive EnvSource
  | configMapKeyRef (name : String) (optional : Bool)
  | secretKeyRef (name : String) (optional : Bool)
  | plain
deriving DecidableEq, Repr

/-- Modelled from the spec: an `envFrom` source importing a whole config
map or secret. -/
inductive EnvFromSource
  | configMapRef (name : String) (optional : Bool)
  | secretRef (name : String) (optional : Bool)
deriving DecidableEq, Repr

/-- A container: its environment-variable sources and `envFrom` sources. -/
structure Container where
  env : List EnvSource
  envFrom : List EnvFromSource
deriving DecidableEq, Repr

/-- Modelled from the spec: a pod template — metadata annotations plus the
volume and container lists that extraction walks. -/
structure PodTemplate where
  annotations : List (String × String)
  volumes : List VolumeSource
  containers : List Container
  initContainers : List Container
deriving DecidableEq, Repr

/-- One raw occurrence of a configuration-object reference found while
walking a pod template. -/
structure RawRef where
  kind : DepKind
  name : String
  optional : Bool
deriving DecidableEq, Repr

/-- The Dependency identity of an occurrence. -/
def RawRef.id (o : RawRef) : DepId := (o.kind, o.name)

/-- Occurrences contributed by one projected-volume source. -/
def projOccs : ProjSource → List RawRef
  | .configMap n opt => [⟨.configMap, n, opt⟩]
  | .secret n opt => [⟨.secret, n, opt⟩]
  | .other => []

/-- Occurrences contributed by one volume. -/
def volOccs : VolumeSource → List RawRef
  | .configMap n opt => [⟨.configMap, n, opt⟩]
  | .secret n opt => [⟨.secret, n, opt⟩]
  | .projected srcs => (srcs.map projOccs).flatten
  | .other => []

/-- Occurrences contributed by one environment-variable source. -/
def envOccs : EnvSource → List RawRef
  | .configMapKeyRef n opt => [⟨.configMap, n, opt⟩]
  | .secretKeyRef n opt => [⟨.secret, n, opt⟩]
  | .plain => []

/-- Occurrences contributed by one `envFrom` source. -/
def envFromOccs : EnvFromSource → List RawRef
  | .configMapRef n opt => [⟨.configMap, n, opt⟩]
  | .secretRef n opt => [⟨.secret, n, opt⟩]

/-- Occurrences contributed by one container. -/
def containerOccs (c : Container) : List RawRef :=
  (c.env.map envOccs).flatten ++ (c.envFrom.map envFromOccs).flatten

/-- Modelled from the spec: every raw reference occurrence in a pod
template — volumes (including projected sources) and all container and
init-container environment sources. -/
def occurrences (t : PodTemplate) : List RawRef :=
  (t.volumes.map volOccs).flatten ++ ((t.containers ++ t.initContainers).map containerOccs).flatten

/-- An extracted Reference: Dependency identity plus whether its absence
must block reconciliation. -/
structure Reference where
  id : DepId
  required : Bool
deriving DecidableEq, Repr

/-- Requiredness of an identity: the logical OR of non-optional across its
occurrences. -/
def requiredOf (occs : List RawRef) (i : DepId) : Bool :=
  occs.any fun o => decide (o.id = i) && !o.optional

/-- Modelled from the spec: `Extract(podTemplate)` — deduplicate the
occurrences by identity (requiredness ORed across duplicates) and emit the
references sorted lexicographically by kind then name. -/
def Extract (t : PodTemplate) : List Reference :=
  (List.insertionSort (· ≤ ·) ((occurrences t).map RawRef.id).dedup).map
    fun i => ⟨i, requiredOf (occurrences t) i⟩

/-- A Dependency's opaque key-to-content data, in arbitrary (map
iteration) order. -/
abbrev Content := List (String × String)

/-- Engine error taxonomy relevant to the missing claims: a required
Dependency was absent, carrying the reference identity. -/
inductive EngineError
  | missingDependency (i : DepId)
deriving DecidableEq, Repr

/-- Look an identity up in a fetched-contents map (first matching entry). -/
def contentLookup (C : List (DepId × Content)) (i : DepId) : Option Content :=
  (C.find? fun p => decide (p.1 = i)).map Prod.snd

/-- Kind component of a reference identity, serialized. -/
def kindStr : DepKind → String
  | .configMap => "configmap"
  | .secret => "secret"

/-- Stable serialization of one content key/value pair. -/
def pairStr (p : String × String) : String :=
  p.1 ++ "=" ++ p.2 ++ ";"

/-- Modelled from the spec: stable serialization of a content map — its
pairs serialized and sorted, independent of iteration order. -/
def canonContent (c : Content) : String :=
  String.join (List.insertionSort (· ≤ ·) (c.map pairStr))

/-- Serialized contribution of a single reference to the hash stream. -/
def refPart (i : DepId) (c : Content) : String :=
  kindStr i.1 ++ ":" ++ i.2 ++ "<" ++ canonContent c ++ ">"

/-- Modelled from the spec: the content-addressed digest over the byte
stream, abstracted as a deterministic 64-bit polynomial hash rendered as a
string. -/
def digestOf (s : String) : String :=
  toString (s.foldl (fun h c => (h * 131 + c.toNat) % (2 ^ 64)) 5381)

/-- Modelled from the spec: walk the references in extraction order,
resolving each to its fetched content; a missing required reference fails
with `missingDependency`, a missing optional reference contributes empty
content. -/
def fingerprintParts : List Reference → List (DepId × Content) → Except EngineError (List String)
  | [], _ => .ok []
  | r :: rs, C =>
    match contentLookup C r.id with
    | none =>
      if r.required then .error (.missingDependency r.id)
      else (fingerprintParts rs C).map fun ps => refPart r.id [] :: ps
    | some c => (fingerprintParts rs C).map fun ps => refPart r.id c :: ps

/-- Modelled from the spec: `Fingerprint(references, fetchedContents)` —
digest of the concatenated per-reference serializations, or a
`missingDependency` error. -/
def Fingerprint (refs : List Reference) (C : List (DepId × Content)) :
    Except EngineError String :=
  (fingerprintParts refs C).map fun ps => digestOf (String.join ps)

/-- An Owner identity (namespace, name); the kind is fixed by the
controller instantiation. -/
abbrev OwnerId := String × String

/-- An Owner object: its identity and its pod template. -/
structure OwnerObj where
  id : OwnerId
  template : PodTemplate
deriving DecidableEq, Repr

/-- A Dependency object: identity, opaque content, the owner references
recorded on it (the ownership edges) and its finalizer list. -/
structure DepObj where
  id : DepId
  content : Content
  ownerRefs : List OwnerId
  finalizers : List String
deriving DecidableEq, Repr

/-- The backing-store state the engine reads and mutates. -/
structure World where
  owners : List OwnerObj
  deps : List DepObj
deriving DecidableEq, Repr

/-- The single shared finalizer token. -/
def waveFinalizer : String := "wave.pusher.com/finalizer"

/-- The engine-reserved pod-template key holding the fingerprint. -/
def hashAnnKey : String := "wave.pusher.com/config-hash"

/-- Find an Owner by identity. -/
def lookupOwner (owners : List OwnerObj) (oid : OwnerId) : Option OwnerObj :=
  owners.find? fun o => decide (o.id = oid)

/-- Find a Dependency object by identity. -/
def lookupDepObj (deps : List DepObj) (i : DepId) : Option DepObj :=
  deps.find? fun d => decide (d.id = i)

/-- Modelled from the spec: fetch the content of every extracted reference
that exists in the store, producing the fetched-contents map handed to the
Fingerprint Engine. -/
def fetchContents (deps : List DepObj) (refs : List Reference) : List (DepId × Content) :=
  refs.filterMap fun r => (lookupDepObj deps r.id).map fun d => (r.id, d.content)

/-- Modelled from the spec: remove this Owner's ownership edge from a
Dependency; if that was the last edge, also remove the shared finalizer. -/
def removeEdge (oid : OwnerId) (d : DepObj) : DepObj :=
  { d with
    ownerRefs := d.ownerRefs.filter fun x => decide (x ≠ oid)
    finalizers := match d.ownerRefs.filter fun x => decide (x ≠ oid) with
      | [] => d.finalizers.filter fun f => decide (f ≠ waveFinalizer)
      | _ :: _ => d.finalizers }

/-- Modelled from the spec: add this Owner's ownership edge to a
Dependency, adding the shared finalizer if not already present. -/
def addEdge (oid : OwnerId) (d : DepObj) : DepObj :=
  { d with
    ownerRefs := d.ownerRefs ++ [oid]
    finalizers := if waveFinalizer ∈ d.finalizers then d.finalizers
      else d.finalizers ++ [waveFinalizer] }

/-- Modelled from the spec: the idempotent desired-state patch for one
Dependency — remove the edge if present but no longer desired, add it if
desired but absent, otherwise leave the object untouched (`none` = no
write). -/
def syncStep (oid : OwnerId) (desiredIds : List DepId) (d : DepObj) : Option DepObj :=
  if decide (oid ∈ d.ownerRefs) && !decide (d.id ∈ desiredIds) then some (removeEdge oid d)
  else if decide (d.id ∈ desiredIds) && !decide (oid ∈ d.ownerRefs) then some (addEdge oid d)
  else none

/-- Modelled from the spec: `Sync(owner, desiredReferences, state)` — fail
with `missingDependency` if a desired required reference has no backing
Dependency; otherwise apply the per-Dependency desired-state patches,
counting one write per actually mutated Dependency. -/
def Sync (oid : OwnerId) (refs : List Reference) (deps : List DepObj) :
    List DepObj × Nat × Option EngineError :=
  match refs.find? (fun r => r.required && (lookupDepObj deps r.id).isNone) with
  | some r => (deps, 0, some (.missingDependency r.id))
  | none =>
    (deps.map fun d => (syncStep oid (refs.map Reference.id) d).getD d,
     deps.countP (fun d => (syncStep oid (refs.map Reference.id) d).isSome),
     none)

/-- A recorded user-visible event: a warning carrying the failure, or an
informational rolled/unchanged outcome. -/
inductive Event
  | warning (e : EngineError)
  | info (rolled : Bool)
deriving DecidableEq, Repr

/-- The outcome of one Orchestrator invocation: the resulting store state,
how many Owner and Dependency writes were issued, the recorded events and
the returned error. -/
structure HandleResult where
  world : World
  ownerWrites : Nat
  depWrites : Nat
  events : List Event
  err : Option EngineError
deriving DecidableEq, Repr

/-- Replace-or-append a key in an annotation list. -/
def setKV (l : List (String × String)) (k v : String) : List (String × String) :=
  (l.filter fun p => decide (p.1 ≠ k)) ++ [(k, v)]

/-- Look a key up in an annotation list. -/
def lookupKV (l : List (String × String)) (k : String) : Option String :=
  (l.find? fun p => decide (p.1 = k)).map Prod.snd

/-- Write one pod-template annotation, leaving the rest of the template
untouched. -/
def setTemplateAnn (t : PodTemplate) (k v : String) : PodTemplate :=
  { t with annotations := setKV t.annotations k v }

/-- Apply a mutation to the Owner with the given identity. -/
def updateOwner (owners : List OwnerObj) (oid : OwnerId) (f : OwnerObj → OwnerObj) :
    List OwnerObj :=
  owners.map fun o => if o.id = oid then f o else o

/-- Number of Owner writes the Orchestrator issues for digest `dg`: one
exactly when the stored annotation differs. -/
def writeCount (owner : OwnerObj) (dg : String) : Nat :=
  if lookupKV owner.template.annotations hashAnnKey = some dg then 0 else 1

/-- Owner list after the fingerprint comparison: unchanged when the stored
annotation already equals the digest, else with the annotation written. -/
def ownersAfter (w : World) (owner : OwnerObj) (oid : OwnerId) (dg : String) :
    List OwnerObj :=
  if lookupKV owner.template.annotations hashAnnKey = some dg then w.owners
  else updateOwner w.owners oid
    fun o => { o with template := setTemplateAnn o.template hashAnnKey dg }

/-- Modelled from the spec: one Orchestrator invocation for one workload
identity — fetch the Owner (absent means terminal success, no-op), extract
references, fetch dependency contents, fingerprint (a missing required
dependency is a terminal failure with a warning event and no write),
update the pod-template annotation if the digest changed, and run the
Dependency Tracker Sync. -/
def reconcileWorld (w : World) (oid : OwnerId) : HandleResult :=
  match lookupOwner w.owners oid with
  | none => ⟨w, 0, 0, [], none⟩
  | some owner =>
    match Fingerprint (Extract owner.template)
        (fetchContents w.deps (Extract owner.template)) with
    | .error e => ⟨w, 0, 0, [.warning e], some e⟩
    | .ok dg =>
      match Sync oid (Extract owner.template) w.deps with
      | (deps1, dw, some er) =>
        ⟨⟨ownersAfter w owner oid dg, deps1⟩, writeCount owner dg, dw, [.warning er], some er⟩
      | (deps1, dw, none) =>
        ⟨⟨ownersAfter w owner oid dg, deps1⟩, writeCount owner dg, dw,
          [.info (decide (writeCount owner dg = 1))], none⟩

/-- The finalizer invariant: a Dependency carries the shared finalizer
exactly when at least one ownership edge references it. -/
def FinalizerInv (deps : List DepObj) : Prop :=
  ∀ d ∈ deps, (waveFinalizer ∈ d.finalizers ↔ d.ownerRefs ≠ [])

/-- Two fetched-contents maps related by reordering: a permutation of the
entries, each entry keeping its key and permuting its content pairs. -/
def ContentPermEquiv (C C2 : List (DepId × Content)) : Prop :=
  ∃ Cm, C.Perm Cm ∧ List.Forall₂ (fun a b => a.1 = b.1 ∧ a.2.Perm b.2) Cm C2

/-- Pointwise relation between two lookup results: both absent, or both
present with contents equal up to pair order. -/
def OptContentRel (a b : Option Content) : Prop :=
  (a = none ∧ b = none) ∨ ∃ c c2, a = some c ∧ b = some c2 ∧ c.Perm c2

/-- Concrete template: one required config-map volume, one optional secret
volume. -/
def tplA : PodTemplate := ⟨[], [.configMap "a" false, .secret "b" true], [], []⟩

/-- Reordering of `tplA`: its volume slice in the opposite order. -/
def tplB : PodTemplate := ⟨[], [.secret "b" true, .configMap "a" false], [], []⟩

/-- Concrete fetched contents for `tplA`. -/
def mapA : List (DepId × Content) :=
  [((.configMap, "a"), [("x", "1"), ("y", "2")]), ((.secret, "b"), [("k", "v")])]

/-- Reordering of `mapA`: entries swapped and the pairs of one entry
swapped. -/
def mapB : List (DepId × Content) :=
  [((.secret, "b"), [("k", "v")]), ((.configMap, "a"), [("y", "2"), ("x", "1")])]

/-- Intermediate reordering of `mapA` sharing `mapB`'s entry order. -/
def mapMid : List (DepId × Content) :=
  [((.secret, "b"), [("k", "v")]), ((.configMap, "a"), [("x", "1"), ("y", "2")])]

/-- Concrete workload identity. -/
def oidV : OwnerId := ("default", "web")

/-- A second workload identity. -/
def oid2 : OwnerId := ("default", "api")

/-- Template mounting one required config map. -/
def tplV : PodTemplate := ⟨[], [.configMap "app-config" false], [], []⟩

/-- Owner `web` carrying `tplV`. -/
def ownerV : OwnerObj := ⟨oidV, tplV⟩

/-- World where the required config map referenced by `web` is absent. -/
def worldV : World := ⟨[ownerV], []⟩

/-- The config-map Dependency referenced by `web`, initially unowned. -/
def depW : DepObj := ⟨(.configMap, "app-config"), [("x", "1")], [], []⟩

/-- World where `web` and its referenced config map both exist. -/
def worldW : World := ⟨[ownerV], [depW]⟩

/-- The config-map Dependency as it stands after reconciling `worldW`:
edge to `web` added, finalizer added. -/
def depWafter : DepObj := ⟨(.configMap, "app-config"), [("x", "1")], [oidV], [waveFinalizer]⟩

/-- A secret owned by another workload, carrying the finalizer. -/
def depF : DepObj := ⟨(.secret, "creds"), [("p", "q")], [oid2], [waveFinalizer]⟩

/-- Desired references used with the Sync fixtures. -/
def refsF : List Reference := [⟨(.configMap, "app-config"), false⟩]

/-- Concrete test object for the matcher fixtures. -/
def objT : TObj := ⟨("ns", "o"), 7⟩

/-- Concrete test store holding `objT`. -/
def storeT : TestStore := ⟨[(("ns", "o"), objT)]⟩

/-- A client `Get` that always fails with a transport error. -/
def getErrT : TKey → Except K8sError TObj := fun _ => .error (.storeUnavailable "down")

/-- A client `Get` that always returns `objT`. -/
def getOkT : TKey → Except K8sError TObj := fun _ => .ok objT

/-- A client `Update` that stores the given object as the whole state. -/
def doUpdateT : TObj → TestStore → TestStore × Option K8sError :=
  fun o _ => (⟨[(o.key, o)]⟩, none)

/-- A mutation function for the matcher fixtures. -/
def bumpT : TObj → TObj := fun o => ⟨o.key, o.payload + 1⟩

/-- A trivial handler body used to instantiate `Reconcile`. -/
def handleZ : Unit → ReconcileResult × Option K8sError := fun _ => (emptyResult, none)

theorem perm_any_eq {α : Type} {l l2 : List α} (h : l.Perm l2) (p : α → Bool) :
    l.any p = l2.any p := by
  rw [Bool.eq_iff_iff]
  simp only [List.any_eq_true]
  constructor
  · rintro ⟨x, hx, hp⟩
    exact ⟨x, h.mem_iff.mp hx, hp⟩
  · rintro ⟨x, hx, hp⟩
    exact ⟨x, h.mem_iff.mpr hx, hp⟩

theorem insertionSort_perm_eq {α : Type} [LinearOrder α] {l l2 : List α} (h : l.Perm l2) :
    List.insertionSort (· ≤ ·) l = List.insertionSort (· ≤ ·) l2 :=
  List.eq_of_perm_of_sorted
    ((List.perm_insertionSort _ l).trans (h.trans (List.perm_insertionSort _ l2).symm))
    (List.sorted_insertionSort _ l) (List.sorted_insertionSort _ l2)

theorem canonContent_perm {c c2 : Content} (h : c.Perm c2) :
    canonContent c = canonContent c2 := by
  unfold canonContent
  rw [insertionSort_perm_eq (h.map pairStr)]

theorem extract_occurrences_perm {t t2 : PodTemplate}
    (h : (occurrences t).Perm (occurrences t2)) : Extract t = Extract t2 := by
  unfold Extract
  have hids : ((occurrences t).map RawRef.id).dedup.Perm
      ((occurrences t2).map RawRef.id).dedup := (h.map RawRef.id).dedup
  rw [insertionSort_perm_eq hids]
  have hfn : (fun i => (⟨i, requiredOf (occurrences t) i⟩ : Reference)) =
      fun i => ⟨i, requiredOf (occurrences t2) i⟩ :=
    funext fun i => by rw [requiredOf, requiredOf, perm_any_eq h]
  rw [hfn]

theorem contentLookup_perm {C Cm : List (DepId × Content)} (h : C.Perm Cm)
    (hn : (C.map Prod.fst).Nodup) (i : DepId) :
    contentLookup C i = contentLookup Cm i := by
  unfold contentLookup
  cases hf : C.find? (fun p => decide (p.1 = i)) with
  | none =>
    have hall := List.find?_eq_none.mp hf
    have h2 : Cm.find? (fun p => decide (p.1 = i)) = none :=
      List.find?_eq_none.mpr fun x hx => hall x (h.mem_iff.mpr hx)
    rw [h2]
  | some a =>
    have ha : a ∈ C := List.mem_of_find?_eq_some hf
    have hpa : a.1 = i := by simpa using List.find?_some hf
    cases hf2 : Cm.find? (fun p => decide (p.1 = i)) with
    | none =>
      exact absurd hpa (by simpa using List.find?_eq_none.mp hf2 a (h.mem_iff.mp ha))
    | some b =>
      have hb : b ∈ C := h.mem_iff.mpr (List.mem_of_find?_eq_some hf2)
      have hpb : b.1 = i := by simpa using List.find?_some hf2
      have hab : a = b := List.inj_on_of_nodup_map hn ha hb (by rw [hpa, hpb])
      rw [hab]

theorem contentLookup_forall2 {Cm C2 : List (DepId × Content)}
    (h : List.Forall₂ (fun a b => a.1 = b.1 ∧ a.2.Perm b.2) Cm C2) (i : DepId) :
    OptContentRel (contentLookup Cm i) (contentLookup C2 i) := by
  induction h with
  | nil => exact Or.inl ⟨rfl, rfl⟩
  | cons hab _ ih =>
    rename_i a b l1 l2 _
    by_cases hk : a.1 = i
    · refine Or.inr ⟨a.2, b.2, ?_, ?_, hab.2⟩
      · simp [contentLookup, List.find?_cons_of_pos, hk]
      · simp [contentLookup, List.find?_cons_of_pos, hab.1 ▸ hk]
    · have hk2 : ¬ b.1 = i := fun hcon => hk (hab.1 ▸ hcon)
      simpa [contentLookup, List.find?_cons_of_neg, hk, hk2] using ih

theorem fingerprintParts_congr {C C2 : List (DepId × Content)}
    (hrel : ∀ i, OptContentRel (contentLookup C i) (contentLookup C2 i)) :
    ∀ refs, fingerprintParts refs C = fingerprintParts refs C2 := by
  intro refs
  induction refs with
  | nil => rfl
  | cons r rs ih =>
    rcases hrel r.id with ⟨h1, h2⟩ | ⟨c, c2, h1, h2, hperm⟩
    · simp only [fingerprintParts, h1, h2, ih]
    · simp only [fingerprintParts, h1, h2, ih, refPart, canonContent_perm hperm]

theorem extract_mem_eq {t : PodTemplate} {r : Reference} (h : r ∈ Extract t) :
    r = ⟨r.id, requiredOf (occurrences t) r.id⟩ := by
  unfold Extract at h
  obtain ⟨i, _, rfl⟩ := List.mem_map.mp h
  rfl

theorem fingerprintParts_error_of_missing :
    ∀ (refs : List Reference) (C : List (DepId × Content)),
      (∃ r ∈ refs, r.required = true ∧ contentLookup C r.id = none) →
      ∃ i, fingerprintParts refs C = .error (.missingDependency i) ∧
        ∃ r ∈ refs, r.id = i ∧ r.required = true ∧ contentLookup C i = none := by
  intro refs
  induction refs with
  | nil =>
    intro C h
    obtain ⟨r, hr, _⟩ := h
    exact absurd hr (List.not_mem_nil r)
  | cons r0 rs ih =>
    intro C h
    cases hl : contentLookup C r0.id with
    | none =>
      cases hreq : r0.required with
      | true =>
        exact ⟨r0.id, by simp [fingerprintParts, hl, hreq],
          r0, List.mem_cons_self r0 rs, rfl, hreq, hl⟩
      | false =>
        obtain ⟨r, hr, hrq, hrl⟩ := h
        have hrs : r ∈ rs := by
          rcases List.mem_cons.mp hr with rfl | h2
          · rw [hreq] at hrq
            exact absurd hrq (by simp)
          · exact h2
        obtain ⟨i, hi, r2, hr2, hid, hq2, hl2⟩ := ih C ⟨r, hrs, hrq, hrl⟩
        refine ⟨i, ?_, r2, List.mem_cons_of_mem _ hr2, hid, hq2, hl2⟩
        simp [fingerprintParts, hl, hreq, hi, Except.map]
    | some c =>
      obtain ⟨r, hr, hrq, hrl⟩ := h
      have hrs : r ∈ rs := by
        rcases List.mem_cons.mp hr with rfl | h2
        · rw [hl] at hrl
          exact absurd hrl (by simp)
        · exact h2
      obtain ⟨i, hi, r2, hr2, hid, hq2, hl2⟩ := ih C ⟨r, hrs, hrq, hrl⟩
      refine ⟨i, ?_, r2, List.mem_cons_of_mem _ hr2, hid, hq2, hl2⟩
      simp [fingerprintParts, hl, hi, Except.map]

theorem fingerprintParts_ok_of_present :
    ∀ (refs : List Reference) (C : List (DepId × Content)),
      (∀ r ∈ refs, r.required = true → contentLookup C r.id ≠ none) →
      ∃ ps, fingerprintParts refs C = .ok ps := by
  intro refs
  induction refs with
  | nil =>
    intro C _
    exact ⟨[], rfl⟩
  | cons r0 rs ih =>
    intro C h
    obtain ⟨ps, hps⟩ := ih C fun r hr => h r (List.mem_cons_of_mem _ hr)
    cases hl : contentLookup C r0.id with
    | none =>
      cases hreq : r0.required with
      | true => exact absurd hl (h r0 (List.mem_cons_self r0 rs) hreq)
      | false => exact ⟨refPart r0.id [] :: ps, by simp [fingerprintParts, hl, hreq, hps, Except.map]⟩
    | some c => exact ⟨refPart r0.id c :: ps, by simp [fingerprintParts, hl, hps, Except.map]⟩

theorem contentLookup_fetchContents_none {deps : List DepObj} :
    ∀ (refs : List Reference) (i : DepId), lookupDepObj deps i = none →
      contentLookup (fetchContents deps refs) i = none := by
  intro refs
  induction refs with
  | nil =>
    intro i _
    rfl
  | cons r rs ih =>
    intro i hi
    cases hr : lookupDepObj deps r.id with
    | none =>
      have hfc : fetchContents deps (r :: rs) = fetchContents deps rs := by
        simp [fetchContents, List.filterMap_cons, hr]
      rw [hfc]
      exact ih i hi
    | some d =>
      have hne : ¬(r.id = i) := by
        intro hcon
        rw [hcon, hi] at hr
        exact Option.noConfusion hr
      have hfc : fetchContents deps (r :: rs) = (r.id, d.content) :: fetchContents deps rs := by
        simp [fetchContents, List.filterMap_cons, hr]
      rw [hfc]
      have hstep : contentLookup ((r.id, d.content) :: fetchContents deps rs) i =
          contentLookup (fetchContents deps rs) i := by
        simp [contentLookup, List.find?_cons_of_neg, hne]
      rw [hstep]
      exact ih i hi

theorem contentLookup_fetchContents {deps : List DepObj} :
    ∀ (refs : List Reference) (r : Reference), r ∈ refs →
      contentLookup (fetchContents deps refs) r.id =
        (lookupDepObj deps r.id).map DepObj.content := by
  intro refs
  induction refs with
  | nil =>
    intro r hr
    exact absurd hr (List.not_mem_nil r)
  | cons r0 rs ih =>
    intro r hr
    cases hr0 : lookupDepObj deps r0.id with
    | none =>
      have hfc : fetchContents deps (r0 :: rs) = fetchContents deps rs := by
        simp [fetchContents, List.filterMap_cons, hr0]
      rcases List.mem_cons.mp hr with rfl | hrs
      · rw [hfc, contentLookup_fetchContents_none rs r.id hr0, hr0]
        rfl
      · rw [hfc]
        exact ih r hrs
    | some d0 =>
      have hfc : fetchContents deps (r0 :: rs) = (r0.id, d0.content) :: fetchContents deps rs := by
        simp [fetchContents, List.filterMap_cons, hr0]
      by_cases hid : r0.id = r.id
      · rw [hfc]
        have hstep : contentLookup ((r0.id, d0.content) :: fetchContents deps rs) r.id =
            some d0.content := by
          simp [contentLookup, List.find?_cons_of_pos, hid]
        rw [hstep, ← hid, hr0]
        rfl
      · have hrs : r ∈ rs := by
          rcases List.mem_cons.mp hr with rfl | h2
          · exact absurd rfl hid
          · exact h2
        rw [hfc]
        have hstep : contentLookup ((r0.id, d0.content) :: fetchContents deps rs) r.id =
            contentLookup (fetchContents deps rs) r.id := by
          simp [contentLookup, List.find?_cons_of_neg, hid]
        rw [hstep]
        exact ih r hrs

theorem fingerprintParts_cons_empty {C : List (DepId × Content)} {i : DepId} :
    ∀ refs : List Reference,
      (∀ r2 ∈ refs, r2.id = i → r2.required = false) →
      contentLookup C i = none →
      fingerprintParts refs ((i, []) :: C) = fingerprintParts refs C := by
  intro refs
  induction refs with
  | nil =>
    intro _ _
    rfl
  | cons r rs ih =>
    intro hopt hnone
    have ihx := ih (fun r2 h2 => hopt r2 (List.mem_cons_of_mem _ h2)) hnone
    by_cases hid : r.id = i
    · have hreq : r.required = false := hopt r (List.mem_cons_self r rs) hid
      have hl1 : contentLookup ((i, []) :: C) r.id = some [] := by
        simp [contentLookup, List.find?_cons_of_pos, hid]
      have hl2 : contentLookup C r.id = none := by
        rw [hid]
        exact hnone
      simp [fingerprintParts, hl1, hl2, hreq, ihx, Except.map]
    · have hl : contentLookup ((i, []) :: C) r.id = contentLookup C r.id := by
        have : ¬(i = r.id) := fun hcon => hid hcon.symm
        simp [contentLookup, List.find?_cons_of_neg, this]
      cases hc : contentLookup C r.id with
      | none => simp [fingerprintParts, hl, hc, ihx, Except.map]
      | some c => simp [fingerprintParts, hl, hc, ihx, Except.map]

/-- C4: Fingerprint determinism — for any two pod templates whose walks
list the same occurrences in any order, and any two fetched-contents maps
holding the same entries in any entry and pair order, the fingerprint of
the extraction is identical; in particular repeated evaluation and map or
slice iteration order cannot change the digest. -/
theorem fingerprint_deterministic (t t2 : PodTemplate) (C C2 : List (DepId × Content))
    (hT : (occurrences t).Perm (occurrences t2))
    (hkeys : (C.map Prod.fst).Nodup)
    (hC : ContentPermEquiv C C2) :
    Fingerprint (Extract t) C = Fingerprint (Extract t2) C2 := by
  obtain ⟨Cm, hperm, hpt⟩ := hC
  have h1 : Extract t = Extract t2 := extract_occurrences_perm hT
  have h3 : ∀ i, OptContentRel (contentLookup C i) (contentLookup C2 i) := by
    intro i
    rw [contentLookup_perm hperm hkeys i]
    exact contentLookup_forall2 hpt i
  rw [h1]
  unfold Fingerprint
  rw [fingerprintParts_congr h3 (Extract t2)]

/-- Witness for C4: a template with its volume slice reversed and a
contents map with entries and pairs reordered yield the same digest. -/
theorem fingerprint_deterministic_witness :
    Fingerprint (Extract tplA) mapA = Fingerprint (Extract tplB) mapB :=
  fingerprint_deterministic tplA tplB mapA mapB (by decide) (by decide)
    ⟨mapMid, by decide, List.Forall₂.cons ⟨rfl, by decide⟩
      (List.Forall₂.cons ⟨rfl, by decide⟩ List.Forall₂.nil)⟩

theorem sync_find_none {refs : List Reference} {deps : List DepObj}
    (h : ∀ r ∈ refs, r.required = true → lookupDepObj deps r.id ≠ none) :
    refs.find? (fun r => r.required && (lookupDepObj deps r.id).isNone) = none := by
  apply List.find?_eq_none.mpr
  intro r hr hcon
  rw [Bool.and_eq_true] at hcon
  exact h r hr hcon.1 (Option.isNone_iff_eq_none.mp hcon.2)

theorem sync_none_of_present {oid : OwnerId} {refs : List Reference} {deps : List DepObj}
    (h : ∀ r ∈ refs, r.required = true → lookupDepObj deps r.id ≠ none) :
    Sync oid refs deps =
      (deps.map fun d => (syncStep oid (refs.map Reference.id) d).getD d,
       deps.countP (fun d => (syncStep oid (refs.map Reference.id) d).isSome), none) := by
  unfold Sync
  rw [sync_find_none h]

/-- C5: if some required reference has no fetched content, the Fingerprint
fails with `missingDependency` carrying the identity of a missing required
reference, and the reconciliation performs no write at all (Owner
annotations untouched), records exactly one warning event and returns the
error; if every required reference resolves, fingerprinting and the
reconciliation proceed without error; and a missing optional reference is
treated exactly as empty content. -/
theorem missing_dependency_behavior (w : World) (oid : OwnerId) (owner : OwnerObj)
    (hown : lookupOwner w.owners oid = some owner) :
    ((∃ r ∈ Extract owner.template, r.required = true ∧
        contentLookup (fetchContents w.deps (Extract owner.template)) r.id = none) →
      ∃ i, (∃ r ∈ Extract owner.template, r.id = i ∧ r.required = true ∧
          contentLookup (fetchContents w.deps (Extract owner.template)) i = none) ∧
        Fingerprint (Extract owner.template) (fetchContents w.deps (Extract owner.template)) =
          Except.error (EngineError.missingDependency i) ∧
        reconcileWorld w oid =
          ⟨w, 0, 0, [Event.warning (EngineError.missingDependency i)],
            some (EngineError.missingDependency i)⟩) ∧
    ((∀ r ∈ Extract owner.template, r.required = true →
        contentLookup (fetchContents w.deps (Extract owner.template)) r.id ≠ none) →
      (∃ dg, Fingerprint (Extract owner.template)
          (fetchContents w.deps (Extract owner.template)) = Except.ok dg) ∧
      (reconcileWorld w oid).err = none) ∧
    (∀ r ∈ Extract owner.template, r.required = false →
      contentLookup (fetchContents w.deps (Extract owner.template)) r.id = none →
      Fingerprint (Extract owner.template)
          ((r.id, []) :: fetchContents w.deps (Extract owner.template)) =
        Fingerprint (Extract owner.template)
          (fetchContents w.deps (Extract owner.template))) := by
  refine ⟨?_, ?_, ?_⟩
  · intro hmiss
    obtain ⟨i, hi, hwit⟩ := fingerprintParts_error_of_missing _ _ hmiss
    have hF : Fingerprint (Extract owner.template)
        (fetchContents w.deps (Extract owner.template)) =
        Except.error (EngineError.missingDependency i) := by
      rw [Fingerprint, hi]
      rfl
    refine ⟨i, hwit, hF, ?_⟩
    unfold reconcileWorld
    rw [hown]
    simp only [hF]
  · intro hpres
    obtain ⟨ps, hps⟩ := fingerprintParts_ok_of_present _ _ hpres
    have hF : Fingerprint (Extract owner.template)
        (fetchContents w.deps (Extract owner.template)) =
        Except.ok (digestOf (String.join ps)) := by
      rw [Fingerprint, hps]
      rfl
    refine ⟨⟨_, hF⟩, ?_⟩
    have hlk : ∀ r ∈ Extract owner.template, r.required = true →
        lookupDepObj w.deps r.id ≠ none := by
      intro r hr hreq hnone
      refine hpres r hr hreq ?_
      rw [contentLookup_fetchContents _ r hr, hnone]
      rfl
    unfold reconcileWorld
    rw [hown]
    simp only [hF, sync_none_of_present hlk]
  · intro r hr hreq hnone
    have e2 := extract_mem_eq hr
    have h3 : r.required = requiredOf (occurrences owner.template) r.id :=
      congrArg Reference.required e2
    have hrq : requiredOf (occurrences owner.template) r.id = false := by
      rw [← h3]
      exact hreq
    have hopt : ∀ r2 ∈ Extract owner.template, r2.id = r.id → r2.required = false := by
      intro r2 hr2 hid
      have e1 := extract_mem_eq hr2
      have h4 : r2.required = requiredOf (occurrences owner.template) r2.id :=
        congrArg Reference.required e1
      rw [h4, hid]
      exact hrq
    rw [Fingerprint, Fingerprint, fingerprintParts_cons_empty _ hopt hnone]

/-- Witness for C5: in a world where the required config map referenced by
`web` does not exist, reconciliation fails with `missingDependency` for
that identity, leaves the world untouched and records one warning event. -/
theorem missing_dependency_behavior_witness :
    reconcileWorld worldV oidV =
      ⟨worldV, 0, 0,
        [Event.warning (EngineError.missingDependency (DepKind.configMap, "app-config"))],
        some (EngineError.missingDependency (DepKind.configMap, "app-config"))⟩ := by
  obtain ⟨i, hwit, hF, hrec⟩ :=
    (missing_dependency_behavior worldV oidV ownerV (by decide)).1
      ⟨⟨(DepKind.configMap, "app-config"), true⟩, by decide, by decide, rfl⟩
  obtain ⟨r, hr, hid, _, _⟩ := hwit
  have hext : Extract ownerV.template = [⟨(DepKind.configMap, "app-config"), true⟩] := by
    decide
  rw [hext] at hr
  have hr2 := List.mem_singleton.mp hr
  have hi : i = (DepKind.configMap, "app-config") := by
    rw [← hid, hr2]
  rw [hi] at hrec
  exact hrec

theorem required_present_of_fingerprint_ok {refs : List Reference} {deps : List DepObj}
    {dg : String} (hF : Fingerprint refs (fetchContents deps refs) = Except.ok dg) :
    ∀ r ∈ refs, r.required = true → lookupDepObj deps r.id ≠ none := by
  intro r hr hreq hnone
  obtain ⟨i, hi, _⟩ := fingerprintParts_error_of_missing refs (fetchContents deps refs)
    ⟨r, hr, hreq, contentLookup_fetchContents_none refs r.id hnone⟩
  rw [Fingerprint, hi] at hF
  simp [Except.map] at hF

theorem syncStep_closure (oid : OwnerId) (dids : List DepId) (d : DepObj) :
    (oid ∈ ((syncStep oid dids d).getD d).ownerRefs ↔
      ((syncStep oid dids d).getD d).id ∈ dids) := by
  unfold syncStep
  by_cases h1 : oid ∈ d.ownerRefs <;> by_cases h2 : d.id ∈ dids
  · simp [h1, h2]
  · simp [h1, h2, removeEdge, List.mem_filter]
  · simp [h1, h2, addEdge]
  · simp [h1, h2]

theorem sync_closure {oid : OwnerId} {refs : List Reference} {deps : List DepObj}
    (h : ∀ r ∈ refs, r.required = true → lookupDepObj deps r.id ≠ none) :
    ∀ d ∈ (Sync oid refs deps).1, (oid ∈ d.ownerRefs ↔ d.id ∈ refs.map Reference.id) := by
  rw [sync_none_of_present h]
  intro d hd
  obtain ⟨d0, _, rfl⟩ := List.mem_map.mp hd
  exact syncStep_closure oid _ d0

theorem removeEdge_finalizer {oid : OwnerId} {d : DepObj}
    (hmem : oid ∈ d.ownerRefs)
    (hinv : waveFinalizer ∈ d.finalizers ↔ d.ownerRefs ≠ []) :
    waveFinalizer ∈ (removeEdge oid d).finalizers ↔ (removeEdge oid d).ownerRefs ≠ [] := by
  have hfin : waveFinalizer ∈ d.finalizers := hinv.mpr (List.ne_nil_of_mem hmem)
  unfold removeEdge
  cases hx : d.ownerRefs.filter fun x => decide (x ≠ oid) with
  | nil =>
    show waveFinalizer ∈ d.finalizers.filter (fun f => decide (f ≠ waveFinalizer)) ↔
      ([] : List OwnerId) ≠ []
    apply iff_of_false
    · intro hcon
      have h2 := (List.mem_filter.mp hcon).2
      simp at h2
    · exact fun hcon => hcon rfl
  | cons a as =>
    show waveFinalizer ∈ d.finalizers ↔ (a :: as) ≠ []
    simp [hfin]

theorem addEdge_finalizer (oid : OwnerId) (d : DepObj) :
    waveFinalizer ∈ (addEdge oid d).finalizers ∧ (addEdge oid d).ownerRefs ≠ [] := by
  refine ⟨?_, by simp [addEdge]⟩
  by_cases hf : waveFinalizer ∈ d.finalizers
  · simp [addEdge, hf]
  · simp [addEdge, hf]

/-- C6: after every successful reconciliation of an existing Owner, a
store Dependency carries an ownership edge to that Owner exactly when its
identity occurs among the references extracted from the Owner's pod
template — new references gained an edge, stale edges were removed. -/
theorem reconcile_ownership_closure (w : World) (oid : OwnerId) (owner : OwnerObj)
    (hown : lookupOwner w.owners oid = some owner)
    (hok : (reconcileWorld w oid).err = none) :
    ∀ d ∈ (reconcileWorld w oid).world.deps,
      (oid ∈ d.ownerRefs ↔ d.id ∈ (Extract owner.template).map Reference.id) := by
  cases hF : Fingerprint (Extract owner.template)
      (fetchContents w.deps (Extract owner.template)) with
  | error e =>
    exfalso
    unfold reconcileWorld at hok
    rw [hown] at hok
    simp only [hF] at hok
    exact Option.noConfusion hok
  | ok dg =>
    have hpres := required_present_of_fingerprint_ok hF
    intro d hd
    unfold reconcileWorld at hd
    rw [hown] at hd
    simp only [hF, @sync_none_of_present oid (Extract owner.template) w.deps hpres] at hd
    obtain ⟨d0, _, rfl⟩ := List.mem_map.mp hd
    exact syncStep_closure oid _ d0

/-- Witness for C6: after reconciling `web` against a world holding its
config map, the resulting Dependency object satisfies the closure
biconditional. -/
theorem reconcile_ownership_closure_witness :
    oidV ∈ depWafter.ownerRefs ↔ depWafter.id ∈ (Extract ownerV.template).map Reference.id :=
  reconcile_ownership_closure worldW oidV ownerV (by decide) rfl depWafter (by decide)

/-- C7: `Sync` preserves the finalizer invariant — starting from any state
where each Dependency carries the shared finalizer exactly when it has at
least one ownership edge, every state `Sync` produces satisfies the same
biconditional: the finalizer is added together with a first edge and
removed together with the last edge. -/
theorem sync_finalizer_iff (oid : OwnerId) (refs : List Reference) (deps : List DepObj)
    (h : FinalizerInv deps) : FinalizerInv (Sync oid refs deps).1 := by
  unfold Sync
  cases hf : refs.find? (fun r => r.required && (lookupDepObj deps r.id).isNone) with
  | some r => exact h
  | none =>
    intro d hd
    obtain ⟨d0, hd0, rfl⟩ := List.mem_map.mp hd
    have hinv := h d0 hd0
    unfold syncStep
    by_cases h1 : oid ∈ d0.ownerRefs <;> by_cases h2 : d0.id ∈ refs.map Reference.id
    · simpa [h1, h2] using hinv
    · simpa [h1, h2] using removeEdge_finalizer h1 hinv
    · have ha := addEdge_finalizer oid d0
      simp [h1, h2, ha.1, ha.2]
    · simpa [h1, h2] using hinv

/-- Witness for C7: a Sync touching one unowned config map and one secret
owned by another workload preserves the finalizer invariant. -/
theorem sync_finalizer_iff_witness :
    FinalizerInv (Sync oidV refsF [depW, depF]).1 :=
  sync_finalizer_iff oidV refsF [depW, depF] (by unfold FinalizerInv; decide)

theorem lookupOwner_map {g : OwnerObj → OwnerObj} (hg : ∀ o, (g o).id = o.id) :
    ∀ (owners : List OwnerObj) (oid : OwnerId),
      lookupOwner (owners.map g) oid = (lookupOwner owners oid).map g := by
  intro owners oid
  induction owners with
  | nil => rfl
  | cons o os ih =>
    simp only [List.map_cons, lookupOwner]
    by_cases ho : o.id = oid
    · rw [List.find?_cons_of_pos _ (by simp [hg o, ho]),
        List.find?_cons_of_pos _ (by simp [ho])]
      rfl
    · rw [List.find?_cons_of_neg _ (by simp [hg o, ho]),
        List.find?_cons_of_neg _ (by simp [ho])]
      exact ih

theorem lookupDepObj_map {g : DepObj → DepObj} (hg : ∀ d, (g d).id = d.id) :
    ∀ (deps : List DepObj) (i : DepId),
      lookupDepObj (deps.map g) i = (lookupDepObj deps i).map g := by
  intro deps i
  induction deps with
  | nil => rfl
  | cons d ds ih =>
    simp only [List.map_cons, lookupDepObj]
    by_cases hd : d.id = i
    · rw [List.find?_cons_of_pos _ (by simp [hg d, hd]),
        List.find?_cons_of_pos _ (by simp [hd])]
      rfl
    · rw [List.find?_cons_of_neg _ (by simp [hg d, hd]),
        List.find?_cons_of_neg _ (by simp [hd])]
      exact ih

theorem fetchContents_map {g : DepObj → DepObj} (hg : ∀ d, (g d).id = d.id)
    (hgc : ∀ d, (g d).content = d.content) (deps : List DepObj) (refs : List Reference) :
    fetchContents (deps.map g) refs = fetchContents deps refs := by
  unfold fetchContents
  have hfn : (fun r => (lookupDepObj (deps.map g) r.id).map fun d => (r.id, d.content)) =
      fun r : Reference => (lookupDepObj deps r.id).map fun d => (r.id, d.content) := by
    funext r
    rw [lookupDepObj_map hg]
    cases lookupDepObj deps r.id with
    | none => rfl
    | some d =>
      simp [hgc d]
  rw [hfn]

theorem syncStep_id (oid : OwnerId) (dids : List DepId) (d : DepObj) :
    ((syncStep oid dids d).getD d).id = d.id := by
  unfold syncStep
  by_cases h1 : oid ∈ d.ownerRefs <;> by_cases h2 : d.id ∈ dids <;>
    simp [h1, h2, removeEdge, addEdge]

theorem syncStep_content (oid : OwnerId) (dids : List DepId) (d : DepObj) :
    ((syncStep oid dids d).getD d).content = d.content := by
  unfold syncStep
  by_cases h1 : oid ∈ d.ownerRefs <;> by_cases h2 : d.id ∈ dids <;>
    simp [h1, h2, removeEdge, addEdge]

theorem syncStep_none_of_closure {oid : OwnerId} {dids : List DepId} {d : DepObj}
    (h : oid ∈ d.ownerRefs ↔ d.id ∈ dids) : syncStep oid dids d = none := by
  unfold syncStep
  by_cases h1 : oid ∈ d.ownerRefs
  · have h2 := h.mp h1
    simp [h1, h2]
  · have h2 : d.id ∉ dids := fun hc => h1 (h.mpr hc)
    simp [h1, h2]

theorem sync_writes_zero {oid : OwnerId} {refs : List Reference} {deps : List DepObj}
    (hcl : ∀ d ∈ deps, (oid ∈ d.ownerRefs ↔ d.id ∈ refs.map Reference.id))
    (hpres : ∀ r ∈ refs, r.required = true → lookupDepObj deps r.id ≠ none) :
    Sync oid refs deps = (deps, 0, none) := by
  rw [sync_none_of_present hpres]
  have hstep : ∀ d ∈ deps, syncStep oid (refs.map Reference.id) d = none :=
    fun d hd => syncStep_none_of_closure (hcl d hd)
  have hmap : ∀ ds : List DepObj, (∀ d ∈ ds, syncStep oid (refs.map Reference.id) d = none) →
      ds.map (fun d => (syncStep oid (refs.map Reference.id) d).getD d) = ds := by
    intro ds
    induction ds with
    | nil =>
      intro _
      rfl
    | cons d dt ih =>
      intro hall
      simp only [List.map_cons]
      rw [hall d (List.mem_cons_self d dt), ih fun x hx => hall x (List.mem_cons_of_mem _ hx)]
      rfl
  have hcnt : deps.countP (fun d => (syncStep oid (refs.map Reference.id) d).isSome) = 0 := by
    apply List.countP_eq_zero.mpr
    intro d hd
    simp [hstep d hd]
  rw [hmap deps hstep, hcnt]

theorem extract_setTemplateAnn (t : PodTemplate) (k v : String) :
    Extract (setTemplateAnn t k v) = Extract t := rfl

theorem lookupKV_setKV (l : List (String × String)) (k v : String) :
    lookupKV (setKV l k v) k = some v := by
  unfold lookupKV setKV
  rw [List.find?_append]
  have h1 : (l.filter fun p => decide (p.1 ≠ k)).find? (fun p => decide (p.1 = k)) = none := by
    apply List.find?_eq_none.mpr
    intro p hp
    have h2 := (List.mem_filter.mp hp).2
    simp at h2 ⊢
    exact h2
  rw [h1, List.find?_cons_of_pos _ (by simp)]
  rfl

/-- C8: Orchestrator idempotence — for every initial store state and every
workload identity, running the Orchestrator a second time immediately after
a first run, with no external change in between, issues zero Owner writes
and zero Dependency writes. -/
theorem reconcile_idempotent (w : World) (oid : OwnerId) :
    (reconcileWorld (reconcileWorld w oid).world oid).ownerWrites = 0 ∧
    (reconcileWorld (reconcileWorld w oid).world oid).depWrites = 0 := by
  cases hown : lookupOwner w.owners oid with
  | none =>
    have h1 : reconcileWorld w oid = ⟨w, 0, 0, [], none⟩ := by
      unfold reconcileWorld
      rw [hown]
    simp [h1]
  | some owner =>
    cases hF : Fingerprint (Extract owner.template)
        (fetchContents w.deps (Extract owner.template)) with
    | error e =>
      have h1 : reconcileWorld w oid = ⟨w, 0, 0, [.warning e], some e⟩ := by
        unfold reconcileWorld
        rw [hown]
        simp only [hF]
      simp [h1]
    | ok dg =>
      have hoid : owner.id = oid := by simpa using List.find?_some hown
      have hpres := required_present_of_fingerprint_ok hF
      have hsync := @sync_none_of_present oid (Extract owner.template) w.deps hpres
      have h1 : reconcileWorld w oid =
          ⟨⟨ownersAfter w owner oid dg,
            w.deps.map fun d =>
              (syncStep oid ((Extract owner.template).map Reference.id) d).getD d⟩,
           writeCount owner dg,
           w.deps.countP fun d =>
             (syncStep oid ((Extract owner.template).map Reference.id) d).isSome,
           [Event.info (decide (writeCount owner dg = 1))], none⟩ := by
        unfold reconcileWorld
        rw [hown]
        simp only [hF, hsync]
      have hg : ∀ d,
          ((syncStep oid ((Extract owner.template).map Reference.id) d).getD d).id = d.id :=
        fun d => syncStep_id oid _ d
      have hgc : ∀ d,
          ((syncStep oid ((Extract owner.template).map Reference.id) d).getD d).content =
            d.content :=
        fun d => syncStep_content oid _ d
      obtain ⟨owner2, hlo2, hext2, hkv2⟩ :
          ∃ o2, lookupOwner (ownersAfter w owner oid dg) oid = some o2 ∧
            Extract o2.template = Extract owner.template ∧
            lookupKV o2.template.annotations hashAnnKey = some dg := by
        by_cases hbc : lookupKV owner.template.annotations hashAnnKey = some dg
        · refine ⟨owner, ?_, rfl, hbc⟩
          unfold ownersAfter
          rw [if_pos hbc]
          exact hown
        · refine ⟨{ owner with template := setTemplateAnn owner.template hashAnnKey dg },
            ?_, ?_, ?_⟩
          · unfold ownersAfter
            rw [if_neg hbc]
            unfold updateOwner
            have hg2 : ∀ o : OwnerObj, ((fun o : OwnerObj => if o.id = oid
                then { o with template := setTemplateAnn o.template hashAnnKey dg } else o) o).id =
                o.id := by
              intro o
              by_cases h : o.id = oid <;> simp [h]
            rw [lookupOwner_map hg2 w.owners oid, hown]
            simp [hoid]
          · exact extract_setTemplateAnn owner.template hashAnnKey dg
          · exact lookupKV_setKV owner.template.annotations hashAnnKey dg
      have hF2 : Fingerprint (Extract owner.template)
          (fetchContents (w.deps.map fun d =>
            (syncStep oid ((Extract owner.template).map Reference.id) d).getD d)
            (Extract owner.template)) = Except.ok dg := by
        rw [fetchContents_map hg hgc]
        exact hF
      have hcl : ∀ d ∈ (w.deps.map fun d =>
          (syncStep oid ((Extract owner.template).map Reference.id) d).getD d),
          (oid ∈ d.ownerRefs ↔ d.id ∈ (Extract owner.template).map Reference.id) := by
        intro d hd
        obtain ⟨d0, _, rfl⟩ := List.mem_map.mp hd
        exact syncStep_closure oid _ d0
      have hpres2 : ∀ r ∈ Extract owner.template, r.required = true →
          lookupDepObj (w.deps.map fun d =>
            (syncStep oid ((Extract owner.template).map Reference.id) d).getD d) r.id ≠
            none := by
        intro r hr hreq
        rw [lookupDepObj_map hg]
        cases hl : lookupDepObj w.deps r.id with
        | none => exact absurd hl (hpres r hr hreq)
        | some d => simp
      have hsync2 := sync_writes_zero hcl hpres2
      have hwc2 : writeCount owner2 dg = 0 := by
        unfold writeCount
        rw [if_pos hkv2]
      simp only [h1]
      unfold reconcileWorld
      simp only [hlo2, hext2, hF2, hsync2]
      exact ⟨hwc2, trivial⟩

/-- C1: when the Owner fetch reports NotFound, `Reconcile` returns terminal
success — an empty result and no error — without consulting the handler,
whatever the handler would do. -/
theorem reconcile_notFound_noop (e : K8sError) (h : isNotFound e = true)
    {α : Type} (handle : α → ReconcileResult × Option K8sError) :
    Reconcile (Except.error e) handle = (emptyResult, none) := by
  simp [Reconcile, h]

/-- Witness for C1 at the concrete NotFound error. -/
theorem reconcile_notFound_noop_witness :
    Reconcile (Except.error (K8sError.notFound "web")) handleZ = (emptyResult, none) :=
  reconcile_notFound_noop _ (by decide) handleZ

/-- C2: when the Owner fetch fails with an error that is not NotFound,
`Reconcile` returns that error unchanged together with the empty result (no
requeue directive, no internal retry), without consulting the handler. -/
theorem reconcile_error_propagated (e : K8sError) (h : isNotFound e = false)
    {α : Type} (handle : α → ReconcileResult × Option K8sError) :
    Reconcile (Except.error e) handle = (emptyResult, some e) := by
  simp [Reconcile, h]

/-- Witness for C2 at a concrete transport error. -/
theorem reconcile_error_propagated_witness :
    Reconcile (Except.error (K8sError.storeUnavailable "boom")) handleZ =
      (emptyResult, some (K8sError.storeUnavailable "boom")) :=
  reconcile_error_propagated _ (by decide) handleZ

/-- C3: when every registration succeeds, `add` registers exactly three
watch sources — Deployments enqueueing the object itself, and ConfigMaps
and Secrets each enqueueing their non-controlling Deployment owners — and
nothing else. -/
theorem add_registers_exact_watches :
    add (fun _ => none) =
      Except.ok [⟨WatchKind.deployment, EnqueueHandler.forObject⟩,
        ⟨WatchKind.configMap, EnqueueHandler.forOwner false WatchKind.deployment⟩,
        ⟨WatchKind.secret, EnqueueHandler.forOwner false WatchKind.deployment⟩] := rfl

/-- C9: every `Matcher.Update` attempt fetches first — a failed fetch makes
the attempt return the fetch error with the store untouched and no update
issued, and a successful fetch makes it issue exactly the update of the
mutation applied to the freshly fetched object. -/
theorem update_fetches_then_mutates
    (get : TKey → Except K8sError TObj)
    (doUpdate : TObj → TestStore → TestStore × Option K8sError)
    (s : TestStore) (k : TKey) (fn : TObj → TObj) :
    (∀ e, get k = Except.error e → updateAttempt get doUpdate s k fn = (s, some e)) ∧
    (∀ o, get k = Except.ok o → updateAttempt get doUpdate s k fn = doUpdate (fn o) s) := by
  constructor
  · intro e he
    simp [updateAttempt, he]
  · intro o ho
    simp [updateAttempt, ho]

/-- Witness for C9 at a failing and a succeeding concrete client. -/
theorem update_fetches_then_mutates_witness :
    updateAttempt getErrT doUpdateT storeT ("ns", "o") bumpT =
      (storeT, some (K8sError.storeUnavailable "down")) ∧
    updateAttempt getOkT doUpdateT storeT ("ns", "o") bumpT = doUpdateT (bumpT objT) storeT :=
  ⟨(update_fetches_then_mutates getErrT doUpdateT storeT ("ns", "o") bumpT).1 _ rfl,
   (update_fetches_then_mutates getOkT doUpdateT storeT ("ns", "o") bumpT).2 objT rfl⟩

/-- C10: the type dispatch of `Eventually`'s fetch closure succeeds with a
fresh object of the same kind for each of the five known concrete types and
panics with the unknown-type message on any other non-list object type. -/
theorem eventually_dispatch_total :
    (∀ t : NonListType, t ≠ NonListType.otherObject → eventuallyObjectFresh t = Except.ok t) ∧
    eventuallyObjectFresh NonListType.otherObject = Except.error "Unknown Object type." := by
  constructor
  · intro t ht
    cases t <;> first | rfl | exact absurd rfl ht
  · rfl

/-- Witness for C10 at the Deployment type. -/
theorem eventually_dispatch_total_witness :
    eventuallyObjectFresh NonListType.deployment = Except.ok NonListType.deployment :=
  eventually_dispatch_total.1 NonListType.deployment (by decide)

end Wave
